import Mathlib

/-!
Verification of the LWC preview-server core (lwc-dev-mobile).

Shallow embedding of the module-resolution and server-bootstrap layer:
`LwrServerUtils` (config merge, port probing, idle-shutdown timer),
`CustomLwcModuleProvider` (the `c/` component resolver, probing variant),
`SalesforceLabelProvider` (`@salesforce/label/` resolver) and
`SalesforceResourceProvider` (`@salesforce/resourceUrl/` resolver).

JavaScript strings are modelled as `List Char` so that the string-splitting
and path operations the source performs admit structural induction.  Paths
are POSIX (`path.sep = '/'`); the filesystem, the glob results and the
external port-probe command are passed in as explicit parameters.
-/

namespace LwcDevMobile

/-- A JavaScript string, modelled as its character list. -/
abbrev JSStr := List Char

/-- Embed a Lean string literal as a `JSStr`. -/
def str (s : String) : JSStr := s.toList

/-! ### JavaScript / node string and path primitives -/

/-- `s.split(c)` for a single-character separator: the groups of `s`
between occurrences of `c` (JS semantics, so `"".split(c) = [""]`). -/
def splitCh (c : Char) : JSStr → List JSStr
  | [] => [[]]
  | x :: xs =>
    let r := splitCh c xs
    if x = c then [] :: r
    else
      match r with
      | g :: gs => (x :: g) :: gs
      | [] => [[x]]

/-- `s.replace(pat, repl)` for string patterns: JS replaces only the
first (leftmost) occurrence of `pat`. -/
def jsReplaceFirst (pat repl : JSStr) : JSStr → JSStr
  | [] => []
  | x :: xs =>
    if pat.isPrefixOf (x :: xs) then repl ++ (x :: xs).drop pat.length
    else x :: jsReplaceFirst pat repl xs

/-- `s.replace(/c/g, d)`: global single-character replacement. -/
def jsReplaceAllCh (c d : Char) (s : JSStr) : JSStr :=
  s.map (fun x => if x = c then d else x)

/-- `s.startsWith(pat)`. -/
def jsStartsWith (pat s : JSStr) : Bool := pat.isPrefixOf s

/-- `s.endsWith(pat)`. -/
def jsEndsWith (pat s : JSStr) : Bool := pat.isSuffixOf s

/-- Truthiness of `s.trim()`: true iff `s` has a non-whitespace character. -/
def jsTrimTruthy (s : JSStr) : Bool := s.any (fun c => ¬ c.isWhitespace)

/-- JS falsiness of an optional string value (`undefined`/`null`/`""`). -/
def jsFalsyStr : Option JSStr → Bool
  | none => true
  | some s => s.isEmpty

/-- JS falsiness of an optional number value (`undefined`/`null`/`0`). -/
def jsFalsyNat : Option Nat → Bool
  | none => true
  | some n => n = 0

/-- `Map.get` on an insertion-ordered association list. -/
def mapGet {α : Type} (m : List (JSStr × α)) (k : JSStr) : Option α :=
  (m.find? (fun e => e.1 == k)).map (fun e => e.2)

/-- `Map.set` on an insertion-ordered association list: overwrite in place
when the key exists, append otherwise. -/
def mapSet {α : Type} (m : List (JSStr × α)) (k : JSStr) (v : α) :
    List (JSStr × α) :=
  if (m.find? (fun e => e.1 == k)).isSome then
    m.map (fun e => if e.1 == k then (k, v) else e)
  else m ++ [(k, v)]

/-- `path.join(a, b)` for an absolute `a` and a plain relative `b`
(no normalization is needed for the inputs the source joins). -/
def pathJoin (a b : JSStr) : JSStr := a ++ '/' :: b

/-- One step of POSIX path-segment resolution: empty and `.` segments are
dropped, `..` pops the last kept segment (at the root it is a no-op). -/
def stepSeg (stack : List JSStr) (seg : JSStr) : List JSStr :=
  if seg = [] ∨ seg = ['.'] then stack
  else if seg = ['.', '.'] then stack.tail
  else seg :: stack

/-- Collapse a POSIX segment list (`stepSeg` folded left, then re-ordered). -/
def resolveSegs (segs : List JSStr) : List JSStr :=
  (segs.foldl stepSeg []).reverse

/-- Join resolved segments back with `/`. -/
def joinSegs : List JSStr → JSStr
  | [] => []
  | [s] => s
  | s :: rest => s ++ '/' :: joinSegs rest

/-- `path.resolve(p)` for an absolute POSIX `p`: split on `/`, collapse
`.`/`..`/empty segments, re-join under the leading `/`. -/
def resolvePosixAbs (p : JSStr) : JSStr :=
  '/' :: joinSegs (resolveSegs (splitCh '/' p))

/-- The basename of a path with no trailing slash: everything after the
last `/` (the whole string when there is none). -/
def lastSeg (p : JSStr) : JSStr :=
  (p.reverse.takeWhile (fun c => c ≠ '/')).reverse

/-- `path.extname` on a basename: from the last `.` to the end, empty when
there is no `.` or the only `.` leads a dotfile. -/
def extOfBase (base : JSStr) : JSStr :=
  if base.length ≤ (base.reverse.takeWhile (fun c => c ≠ '.')).length + 1 then []
  else '.' :: (base.reverse.takeWhile (fun c => c ≠ '.')).reverse

/-- `path.extname(p)`. -/
def extname (p : JSStr) : JSStr := extOfBase (lastSeg p)

/-- `path.parse(p).dir`: everything before the last `/`. -/
def pathDirname (p : JSStr) : JSStr :=
  (p.reverse.dropWhile (fun c => c ≠ '/')).reverse.dropLast

/-- `path.parse(p).name`: the basename with its extension removed. -/
def pathNameNoExt (p : JSStr) : JSStr :=
  let b := lastSeg p
  b.take (b.length - (extOfBase b).length)

/-- Decimal rendering of a JS number used in template strings. -/
def natToStr (n : Nat) : JSStr := (toString n).toList

/-! ### Lemmas about the string primitives -/

theorem splitCh_ne_nil (c : Char) (l : JSStr) : splitCh c l ≠ [] := by
  induction l with
  | nil => simp [splitCh]
  | cons x xs ih =>
    simp only [splitCh]
    split
    · simp
    · cases h : splitCh c xs with
      | nil => exact absurd h ih
      | cons g gs => simp [h]

theorem splitCh_of_not_mem {c : Char} {l : JSStr} (h : c ∉ l) :
    splitCh c l = [l] := by
  induction l with
  | nil => rfl
  | cons x xs ih =>
    simp only [List.mem_cons, not_or] at h
    have hx : ¬ x = c := fun hh => h.1 hh.symm
    simp [splitCh, hx, ih h.2]

theorem splitCh_append_cons {c : Char} {l₁ : JSStr} (l₂ : JSStr)
    (h : c ∉ l₁) : splitCh c (l₁ ++ c :: l₂) = l₁ :: splitCh c l₂ := by
  induction l₁ with
  | nil => simp [splitCh]
  | cons x xs ih =>
    simp only [List.mem_cons, not_or] at h
    have hx : ¬ x = c := fun hh => h.1 hh.symm
    simp [splitCh, hx, ih h.2]

/-- The last group of a split is the trailing separator-free part. -/
theorem splitCh_append_last {c : Char} (l₁ : JSStr) {l₂ : JSStr}
    (h : c ∉ l₂) :
    ∃ gs, gs ≠ [] ∧ splitCh c (l₁ ++ c :: l₂) = gs ++ [l₂] := by
  induction l₁ with
  | nil =>
    refine ⟨[[]], by simp, ?_⟩
    simp [splitCh, splitCh_of_not_mem h]
  | cons x xs ih =>
    obtain ⟨gs, hne, hgs⟩ := ih
    by_cases hx : x = c
    · refine ⟨[] :: gs, by simp, ?_⟩
      simp [splitCh, hx, hgs]
    · cases gs with
      | nil => exact absurd rfl hne
      | cons g rest =>
        refine ⟨(x :: g) :: rest, by simp, ?_⟩
        simp [splitCh, hx, hgs]

theorem jsReplaceFirst_append (p : Char) (ps repl rest : JSStr) :
    jsReplaceFirst (p :: ps) repl ((p :: ps) ++ rest) = repl ++ rest := by
  simp only [List.cons_append, jsReplaceFirst]
  rw [if_pos]
  · simp only [List.length_cons, List.drop_succ_cons]
    congr 1
    exact List.drop_left ps rest
  · rw [List.isPrefixOf_iff_prefix]
    exact ⟨rest, by simp⟩

theorem isPrefixOf_append (a b : JSStr) : a.isPrefixOf (a ++ b) = true := by
  rw [List.isPrefixOf_iff_prefix]
  exact ⟨b, rfl⟩

theorem takeWhile_ne_append {c : Char} {l₁ : JSStr} (l₂ : JSStr)
    (h : c ∉ l₁) :
    (l₁ ++ c :: l₂).takeWhile (fun x => x ≠ c) = l₁ := by
  induction l₁ with
  | nil => simp
  | cons x xs ih =>
    simp only [List.mem_cons, not_or] at h
    have hx : ¬ x = c := fun hh => h.1 hh.symm
    simpa [List.takeWhile_cons, hx] using ih h.2

theorem lastSeg_append {q : JSStr} {b : JSStr} (h : '/' ∉ b) :
    lastSeg (q ++ '/' :: b) = b := by
  unfold lastSeg
  have hrev : (q ++ '/' :: b).reverse = b.reverse ++ '/' :: q.reverse := by simp
  rw [hrev, takeWhile_ne_append q.reverse (by simpa using h),
    List.reverse_reverse]

theorem extOfBase_append {b ext : JSStr} (hb : b ≠ []) (hext : '.' ∉ ext) :
    extOfBase (b ++ '.' :: ext) = '.' :: ext := by
  unfold extOfBase
  have hrev : (b ++ '.' :: ext).reverse = ext.reverse ++ '.' :: b.reverse := by
    simp
  rw [hrev, takeWhile_ne_append b.reverse (by simpa using hext)]
  have hb' : 0 < b.length := List.length_pos.mpr hb
  have hcond : ¬ ((b ++ '.' :: ext).length ≤ ext.reverse.length + 1) := by
    simp only [List.length_append, List.length_cons, List.length_reverse]
    omega
  rw [if_neg hcond, List.reverse_reverse]

/-! ### Data model: the LWR configuration (`@lwrjs/types`, `lwr`) -/

/-- `DirModuleRecord`: one module-search directory. -/
structure DirModuleRecord where
  dir : JSStr
deriving DecidableEq, Repr

/-- `LwrRoute`: a route of the LWR app. -/
structure LwrRoute where
  id : JSStr
  path : JSStr
  rootComponent : JSStr
deriving DecidableEq, Repr

/-- The `lwc` section of an `LwrGlobalConfig`. -/
structure LwcConfig where
  modules : Option (List DirModuleRecord)
deriving DecidableEq, Repr

/-- `LwrGlobalConfig`: the fields `getMergedLwrConfig` reads and writes.
Module providers (`ServiceConfig`) are kept abstract as strings.  `none`
models a field absent from the user's `lwr.config.json`. -/
structure LwrGlobalConfig where
  serverMode : Option JSStr
  port : Option Nat
  rootDir : Option JSStr
  lwc : Option LwcConfig
  moduleProviders : Option (List JSStr)
  routes : Option (List LwrRoute)
deriving DecidableEq, Repr

/-- The empty JS object `{}` that `config` falls back to when loading
`lwr.config.json` throws. -/
def emptyConfig : LwrGlobalConfig := ⟨none, none, none, none, none, none⟩

namespace LwrServerUtils

/-- `LwrServerUtils.DEFAULT_SERVER_PORT`. -/
def DEFAULT_SERVER_PORT : Nat := 3000

/-- `path.resolve(path.join(projectDir, componentName))` — the absolute
component directory. -/
def componentFullPath (componentName projectDir : JSStr) : JSStr :=
  resolvePosixAbs (pathJoin projectDir componentName)

/-- `path.resolve(path.join(componentFullPath, '../../'))` — the
conventional module root, two levels above the component. -/
def twoLevelUp (componentName projectDir : JSStr) : JSStr :=
  resolvePosixAbs (pathJoin (componentFullPath componentName projectDir) (str "../../"))

/-- `componentFullPath.replace(twoLevelUp + path.sep, '').replace(/\\/gi, '/')`
— the component id relative to the module root. -/
def rootComp (componentName projectDir : JSStr) : JSStr :=
  jsReplaceAllCh '\\' '/'
    (jsReplaceFirst (twoLevelUp componentName projectDir ++ ['/']) []
      (componentFullPath componentName projectDir))

/-- The computed default `DirModuleRecord` (`lwcModuleRecord` in source). -/
def lwcModuleRecord (componentName projectDir : JSStr) : DirModuleRecord :=
  ⟨twoLevelUp componentName projectDir⟩

/-- The computed default route (`defaultLwrRoute` in source); `now` models
`Date.now()`. -/
def defaultLwrRoute (componentName projectDir : JSStr) (now : Nat) : LwrRoute :=
  ⟨jsReplaceAllCh '/' '-' (rootComp componentName projectDir) ++ '-' :: natToStr now,
    str "/", rootComp componentName projectDir⟩

/-- `LwrServerUtils.getMergedLwrConfig`.  `modifiedModuleProviders` stands
for `getModifiedModuleProviders()` (LWR's defaults with the custom provider
prepended — computed by the external `normalizeConfig`), `userConfig` for
the result of loading `lwr.config.json` (`none` when the load throws),
`computedPort` for `getNextAvailablePort()` and `now` for `Date.now()`.
Falsy user values (`""`, `0`) are replaced exactly as `!config.field` does
in JavaScript. -/
def getMergedLwrConfig (modifiedModuleProviders : List JSStr)
    (componentName projectDir : JSStr) (userConfig : Option LwrGlobalConfig)
    (computedPort now : Nat) : LwrGlobalConfig :=
  let config := userConfig.getD emptyConfig
  { serverMode := if jsFalsyStr config.serverMode then some (str "dev")
      else config.serverMode
    port := if jsFalsyNat config.port then some computedPort else config.port
    rootDir := if jsFalsyStr config.rootDir then some (resolvePosixAbs projectDir)
      else config.rootDir
    lwc :=
      match config.lwc with
      | none => some ⟨some [lwcModuleRecord componentName projectDir]⟩
      | some l =>
        match l.modules with
        | none => some ⟨some [lwcModuleRecord componentName projectDir]⟩
        | some ms => some ⟨some (lwcModuleRecord componentName projectDir :: ms)⟩
    moduleProviders :=
      match config.moduleProviders with
      | none => some modifiedModuleProviders
      | some ps => some (modifiedModuleProviders ++ ps)
    routes :=
      match config.routes with
      | none => some [defaultLwrRoute componentName projectDir now]
      | some rs => some (defaultLwrRoute componentName projectDir now :: rs) }

/-! #### Port probing (`getNextAvailablePort`) -/

/-- Outcome of the external probe command (`lsof` / `netstat`): it either
throws or produces output. -/
inductive ProbeOutcome where
  | threw
  | output (s : JSStr)
deriving DecidableEq, Repr

/-- Whether a probe outcome makes the loop treat the port as in use:
only non-blank command output does; a command that throws means free. -/
def probeReportsInUse : ProbeOutcome → Bool
  | .threw => false
  | .output s => jsTrimTruthy s

/-- The `while (!done)` loop of `getNextAvailablePort`, with explicit fuel
(the source loop has no iteration bound; `none` means fuel ran out). -/
def getNextAvailablePortFrom (probe : Nat → ProbeOutcome) :
    Nat → Nat → Option Nat
  | 0, _ => none
  | fuel + 1, port =>
    if probeReportsInUse (probe port) then
      getNextAvailablePortFrom probe fuel (port + 2)
    else some port

/-- `LwrServerUtils.getNextAvailablePort`: starts at `DEFAULT_SERVER_PORT`,
stepping by 2 while the probe reports the port in use. -/
def getNextAvailablePort (probe : Nat → ProbeOutcome) (fuel : Nat) : Option Nat :=
  getNextAvailablePortFrom probe fuel DEFAULT_SERVER_PORT

/-! #### The idle shutdown timer -/

/-- `timeoutMinutes * 60 * 1000` — the delay `setShutDownTimer` passes to
`setTimeout`, in milliseconds. -/
def idleDelayMs (timeoutMinutes : Nat) : Nat := timeoutMinutes * 60 * 1000

/-- The single pending `setTimeout` owned by the server, plus whether the
shutdown callback has already run (and when). -/
structure TimerState where
  deadline : Nat
  firedAt : Option Nat
deriving DecidableEq, Repr

/-- `setShutDownTimer` as arming: the timeout fires a full idle delay
after `now`. -/
def armShutDownTimer (timeoutMinutes now : Nat) : Nat :=
  now + idleDelayMs timeoutMinutes

/-- The timer state right after `listen` succeeds at time `t0`. -/
def listenState (timeoutMinutes t0 : Nat) : TimerState :=
  ⟨armShutDownTimer timeoutMinutes t0, none⟩

/-- The `expressServer.on('request', ...)` hook observed at time `t`:
if the pending timeout already expired the process is gone (the callback
fired at its deadline); otherwise `clearTimeout` plus a fresh
`setShutDownTimer` re-arms the full idle delay from `t`. -/
def onRequest (timeoutMinutes : Nat) (s : TimerState) (t : Nat) : TimerState :=
  if s.firedAt.isSome then s
  else if s.deadline ≤ t then { s with firedAt := some s.deadline }
  else ⟨armShutDownTimer timeoutMinutes t, none⟩

/-- Fold the request hook over a time-ordered request trace. -/
def runRequests (timeoutMinutes : Nat) : TimerState → List Nat → TimerState
  | s, [] => s
  | s, t :: ts => runRequests timeoutMinutes (onRequest timeoutMinutes s t) ts

/-- When the process shuts down, given the trace ends: at the recorded
fire time, or else at the still-pending deadline (no further requests
arrive to clear it). -/
def shutdownTime (s : TimerState) : Nat :=
  match s.firedAt with
  | some t => t
  | none => s.deadline

/-- Each request lands strictly before the deadline the previous one
armed, i.e. consecutive requests are spaced less than the idle delay. -/
def withinWindow (timeoutMinutes : Nat) : Nat → List Nat → Bool
  | _, [] => true
  | d, t :: ts =>
    decide (t < d) && withinWindow timeoutMinutes (armShutDownTimer timeoutMinutes t) ts

/-! #### The shutdown callback (`setShutDownTimer`'s `setTimeout` body) -/

/-- What the process does after the callback body runs. -/
inductive ProcOutcome where
  | running
  | exited (code : Nat)
deriving DecidableEq, Repr

/-- The body of the `setTimeout` callback in `setShutDownTimer`: log the
idle message, `await lwrapp.close()` (its result passed in as
`closeResult`), log any close error, then `process.exit` with 0 on a
clean close and 1 when `close` threw. -/
def shutDownTimerCallback (timeoutMinutes : Nat)
    (closeResult : Except JSStr Unit) : List JSStr × ProcOutcome :=
  let logs := [str "Server idle for " ++ natToStr timeoutMinutes ++
    str " minutes... shutting down"]
  match closeResult with
  | .ok _ => (logs, .exited 0)
  | .error err =>
    (logs ++ [str "Unable to gracefully shutdown the server - " ++ err], .exited 1)

end LwrServerUtils

/-! ### The Component Locator (`generateSfdxComponentsMap` /
`generateSfdxLabelComponentsMap`) -/

/-- Result of reading and parsing `sfdx-project.json`: `.error` covers a
missing or unreadable file and malformed JSON; `.ok none` a JSON document
whose `packageDirectories` is absent (the subsequent `.map` then throws a
TypeError, caught by the same `catch`); `.ok (some pkgs)` the declared
package-directory paths. -/
abbrev ManifestResult := Except Unit (Option (List JSStr))

/-- One custom-label entry (`{ fullName, value }`). -/
structure LabelEntry where
  fullName : JSStr
  value : JSStr
deriving DecidableEq, Repr

/-- The parsed XML of one labels file, as the lookup reads it:
`jsonObj.CustomLabels?.labels` is either absent (`none`), a single entry
object, or an array of entries. -/
structure ParsedLabels where
  labelsField : Option (LabelEntry ⊕ List LabelEntry)
deriving DecidableEq, Repr

namespace CustomLwcModuleProvider

/-- `generateSfdxComponentsMap`: under `.ok (some pkgs)` every globbed
file whose directory name equals its extension-less base name is recorded
(`map.set(data.name, data.dir)`); any manifest failure yields the empty
map.  `files` stands for the synchronous glob result. -/
def generateSfdxComponentsMap (manifest : ManifestResult)
    (files : List JSStr) : List (JSStr × JSStr) :=
  match manifest with
  | .error _ => []
  | .ok none => []
  | .ok (some _) =>
    files.foldl
      (fun map item =>
        if jsEndsWith (pathNameNoExt item) (pathDirname item) then
          mapSet map (pathNameNoExt item) (pathDirname item)
        else map)
      []

/-- A resolver verdict: an entry record, or delegation to the wrapped base
`LwcModuleProvider` (`super.getModuleEntry`). -/
inductive Resolution where
  | entryFound (id entry specifier version : JSStr)
  | deferToBase
deriving DecidableEq, Repr

/-- `CustomLwcModuleProvider.getModuleEntry` (the filesystem-probing
variant): for a `c/`-namespaced specifier found in the component map,
builds the entry path from the `#` fragment when given, otherwise from
the specifier name — probing for a `.js` then a `.css` sibling when the
name carries no extension.  `fsFiles` stands for the files `fs.existsSync`
can see. -/
def getModuleEntry (fsFiles : List JSStr) (moduleMap : List (JSStr × JSStr))
    (specifier : JSStr) : Resolution :=
  if jsStartsWith (str "c/") specifier then
    let parts := splitCh '#' specifier
    let baseSpecifier := jsReplaceFirst (str "c/") [] (parts.headD [])
    let fileRelativePath : Option JSStr :=
      if parts.length > 1 then parts.get? 1 else none
    match mapGet moduleMap baseSpecifier with
    | some directoryname =>
      let name0 := jsReplaceFirst (str "c/") [] specifier
      let name :=
        if jsFalsyStr fileRelativePath ∧ ¬ name0.contains '.' then
          if fsFiles.contains (pathJoin directoryname name0 ++ str ".js") then
            name0 ++ str ".js"
          else if fsFiles.contains (pathJoin directoryname name0 ++ str ".css") then
            name0 ++ str ".css"
          else name0
        else name0
      let entry := pathJoin directoryname
        (match fileRelativePath with
          | some f => if f.isEmpty then name else f
          | none => name)
      if ¬ entry.isEmpty then
        .entryFound (specifier ++ str "|1") entry specifier (str "1")
      else .deferToBase
    | none => .deferToBase
  else .deferToBase

end CustomLwcModuleProvider

namespace SalesforceLabelProvider

/-- `generateSfdxLabelComponentsMap`: globbed label files are parsed one
by one; a file whose read or XML parse throws is skipped by the inner
`catch`, the rest are stored under their root-relative path.  Any
manifest failure yields the empty map.  `files` pairs each globbed path
with its read-and-parse result. -/
def generateSfdxLabelComponentsMap (rootDir : JSStr) (manifest : ManifestResult)
    (files : List (JSStr × Except Unit ParsedLabels)) :
    List (JSStr × ParsedLabels) :=
  match manifest with
  | .error _ => []
  | .ok none => []
  | .ok (some _) =>
    files.foldl
      (fun map item =>
        match item.2 with
        | .ok parsed => mapSet map (jsReplaceFirst (rootDir ++ ['/']) [] item.1) parsed
        | .error _ => map)
      []

/-- The `labels.find(item => item.fullName === labelName)` step, after the
non-array wrap `labels = [labels]`: an absent `labels` field becomes
`[undefined]`, whose element dereference throws (`.error`). -/
def findInLabelsField (labels : Option (LabelEntry ⊕ List LabelEntry))
    (labelName : JSStr) : Except Unit (Option LabelEntry) :=
  match labels with
  | none => .error ()
  | some (.inl e) => .ok (if e.fullName == labelName then some e else none)
  | some (.inr es) => .ok (es.find? (fun e => e.fullName == labelName))

/-- The `for (var item of this.customLabelsMap)` loop: first match across
files wins; a thrown lookup aborts the whole search. -/
def searchLabelFiles (m : List (JSStr × ParsedLabels)) (labelName : JSStr) :
    Except Unit (Option JSStr) :=
  match m with
  | [] => .ok none
  | (_, f) :: rest =>
    match findInLabelsField f.labelsField labelName with
    | .error _ => .error ()
    | .ok (some e) => .ok (some e.value)
    | .ok none => searchLabelFiles rest labelName

/-- `specifier?.split('/')[2]?.split('.')[1]` — the label's logical name. -/
def labelNameOf (specifier : JSStr) : Option JSStr :=
  ((splitCh '/' specifier).get? 2).bind (fun seg => (splitCh '.' seg).get? 1)

/-- `SalesforceLabelProvider.getLabelValueFromMap`. -/
def getLabelValueFromMap (m : List (JSStr × ParsedLabels)) (specifier : JSStr) :
    Except Unit (Option JSStr) :=
  match labelNameOf specifier with
  | some labelName =>
    if labelName.isEmpty then .ok none else searchLabelFiles m labelName
  | none => .ok none

/-- The entry `getModuleEntry` synthesizes for a matched label. -/
structure LabelModuleEntry where
  id : JSStr
  virtual : Bool
  entry : JSStr
  specifier : JSStr
  version : JSStr
  labelValue : JSStr
deriving DecidableEq, Repr

/-- `SalesforceLabelProvider.getModuleEntry`: for a
`@salesforce/label/`-prefixed specifier whose looked-up value is truthy,
a virtual entry carrying the resolved value; otherwise `undefined`
(modelled `none`). -/
def getModuleEntry (m : List (JSStr × ParsedLabels)) (specifier : JSStr) :
    Except Unit (Option LabelModuleEntry) :=
  if jsStartsWith (str "@salesforce/label/") specifier then
    match getLabelValueFromMap m specifier with
    | .error _ => .error ()
    | .ok (some v) =>
      if v.isEmpty then .ok none
      else .ok (some
        ⟨specifier ++ str "|1", true,
          str "<virtual>/" ++ specifier ++
            (if (extname specifier).isEmpty then str ".js" else []),
          specifier, str "1", v⟩)
    | .ok none => .ok none
  else .ok none

/-- The compiled virtual module `getModule` synthesizes. -/
structure LabelModuleCompiled where
  id : JSStr
  specifier : JSStr
  version : JSStr
  originalSource : JSStr
  moduleEntry : LabelModuleEntry
  compiledSource : JSStr
deriving DecidableEq, Repr

/-- `SalesforceLabelProvider.getModule`: when the entry exists with a
truthy label value, a virtual module whose source is a single default
export of the label's value as a string literal. -/
def getModule (m : List (JSStr × ParsedLabels)) (specifier : JSStr) :
    Except Unit (Option LabelModuleCompiled) :=
  match getModuleEntry m specifier with
  | .error _ => .error ()
  | .ok none => .ok none
  | .ok (some me) =>
    if me.labelValue.isEmpty then .ok none
    else
      .ok (some
        ⟨me.id, specifier, str "1",
          str "export default \"" ++ me.labelValue ++ str "\";", me,
          str "export default \"" ++ me.labelValue ++ str "\";"⟩)

end SalesforceLabelProvider

namespace SalesforceResourceProvider

/-- `isResourceUrlScopedModule`. -/
def isResourceUrlScopedModule (id : JSStr) : Bool :=
  jsStartsWith (str "@salesforce/resourceUrl/") id ||
  jsStartsWith (str "@salesforce/contentAssetUrl/") id

/-- The virtual entry `getModuleEntry` returns for a recognized specifier. -/
structure ResourceModuleEntry where
  id : JSStr
  virtual : Bool
  entry : JSStr
  specifier : JSStr
  version : JSStr
deriving DecidableEq, Repr

/-- `SalesforceResourceProvider.getModuleEntry`: any specifier in the two
recognized namespaces gets a virtual entry; everything else `undefined`. -/
def getModuleEntry (specifier : JSStr) : Option ResourceModuleEntry :=
  if isResourceUrlScopedModule specifier then
    some
      ⟨specifier ++ str "|1", true,
        str "<virtual>/" ++ specifier ++
          (if (extname specifier).isEmpty then str ".js" else []),
        specifier, str "1"⟩
  else none

/-- The glob `[`${filePath}.*`, `!${filePath}.resource-meta.*`,
`!${filePath}.asset-meta.*`]` over the project files: candidates extend
`filePath` with a dot, exclude the metadata sidecars, and a `*` never
crosses a `/`. -/
def globExtCandidates (files : List JSStr) (filePath : JSStr) : List JSStr :=
  files.filter (fun f =>
    jsStartsWith (filePath ++ ['.']) f &&
    !(f.drop (filePath.length + 1)).contains '/' &&
    !jsStartsWith (filePath ++ str ".resource-meta.") f &&
    !jsStartsWith (filePath ++ str ".asset-meta.") f)

/-- `getFileExtension`: the extension of the first glob match, or the
empty string when nothing (or only sidecar metadata) matches. -/
def getFileExtension (files : List JSStr) (filePath : JSStr) : JSStr :=
  match globExtCandidates files filePath with
  | [] => []
  | f :: _ => extname f

/-- The `path.normalize(path.resolve(rootDir, pathInFolder))` the glob
keys on (`rootDir` already resolved from `process.env.ROOT_DIR`). -/
def fullPath (rootDir pathInFolder : JSStr) : JSStr :=
  resolvePosixAbs (pathJoin rootDir pathInFolder)

/-- `getPath(name, folder)`: the folder-relative path of the named
resource, extended with the extension discovered on disk. -/
def getPath (rootDir : JSStr) (files : List JSStr) (name folder : JSStr) : JSStr :=
  let pathInFolder := pathJoin folder name
  pathInFolder ++ getFileExtension files (fullPath rootDir pathInFolder)

/-- `getResourceFilePath`. -/
def getResourceFilePath (rootDir : JSStr) (files : List JSStr) (name : JSStr) : JSStr :=
  getPath rootDir files name (str "force-app/main/default/staticresources")

/-- `getContentAssetFilePath`. -/
def getContentAssetFilePath (rootDir : JSStr) (files : List JSStr) (name : JSStr) : JSStr :=
  getPath rootDir files name (str "force-app/main/default/contentassets")

/-- The compiled virtual module `getModule` synthesizes. -/
structure ResourceModuleCompiled where
  id : JSStr
  specifier : JSStr
  version : JSStr
  originalSource : JSStr
  moduleEntry : ResourceModuleEntry
  compiledSource : JSStr
deriving DecidableEq, Repr

/-- `SalesforceResourceProvider.getModule`: a recognized specifier always
yields a module exporting the resolved path string (even when no file
matched); an unrecognized one yields `undefined`. -/
def getModule (rootDir : JSStr) (files : List JSStr) (specifier : JSStr) :
    Option ResourceModuleCompiled :=
  match getModuleEntry specifier with
  | none => none
  | some me =>
    let name := (splitCh '.' ((splitCh '/' specifier).getD 2 [])).headD []
    let filePath :=
      if jsStartsWith (str "@salesforce/contentAssetUrl/") specifier then
        getContentAssetFilePath rootDir files name
      else getResourceFilePath rootDir files name
    some
      ⟨me.id, specifier, str "1",
        str "export default \"" ++ filePath ++ str "\";", me,
        str "export default \"" ++ filePath ++ str "\";"⟩

end SalesforceResourceProvider

/-! ## Claim theorems -/

namespace LwrServerUtils

/-- The probing loop returns the first free port of `base, base+2, …`. -/
theorem getNextAvailablePortFrom_first_free (probe : Nat → ProbeOutcome) :
    ∀ (k fuel base : Nat),
      (∀ i, i < k → probeReportsInUse (probe (base + 2 * i)) = true) →
      probeReportsInUse (probe (base + 2 * k)) = false →
      k < fuel →
      getNextAvailablePortFrom probe fuel base = some (base + 2 * k) := by
  intro k
  induction k with
  | zero =>
    intro fuel base _ hfree hlt
    match fuel, hlt with
    | f + 1, _ =>
      simp only [Nat.mul_zero, Nat.add_zero] at hfree
      simp [getNextAvailablePortFrom, hfree]
  | succ k ih =>
    intro fuel base hbusy hfree hlt
    match fuel, hlt with
    | f + 1, hlt =>
      have h0 : probeReportsInUse (probe base) = true := by
        simpa using hbusy 0 (Nat.succ_pos k)
      simp only [getNextAvailablePortFrom, h0, if_pos]
      have hstep : base + 2 * (k + 1) = base + 2 + 2 * k := by omega
      rw [hstep]
      apply ih
      · intro i hi
        have heq : base + 2 + 2 * i = base + 2 * (i + 1) := by omega
        rw [heq]
        exact hbusy (i + 1) (by omega)
      · have heq : base + 2 + 2 * k = base + 2 * (k + 1) := by omega
        rw [heq]
        exact hfree
      · omega

/-- C5: `getNextAvailablePort` starts probing at port 3000 and increments
by 2 on each occupied probe, returning the first port whose probe reports
it free; a probe command that throws is treated as the port being free.
In particular (see the witness) if 3000 is reported in use and 3002 free,
the selected port is 3002. -/
theorem c5_getNextAvailablePort_first_free :
    probeReportsInUse ProbeOutcome.threw = false ∧
    ∀ (probe : Nat → ProbeOutcome) (k fuel : Nat),
      (∀ i, i < k → probeReportsInUse (probe (DEFAULT_SERVER_PORT + 2 * i)) = true) →
      probeReportsInUse (probe (DEFAULT_SERVER_PORT + 2 * k)) = false →
      k < fuel →
      getNextAvailablePort probe fuel = some (DEFAULT_SERVER_PORT + 2 * k) := by
  refine ⟨rfl, ?_⟩
  intro probe k fuel hbusy hfree hlt
  exact getNextAvailablePortFrom_first_free probe k fuel DEFAULT_SERVER_PORT hbusy hfree hlt

/-- C5 witness: a probe reporting 3000 in use and throwing on 3002
selects port 3002. -/
theorem c5_witness :
    getNextAvailablePort
      (fun p => if p = 3000 then ProbeOutcome.output (str "x") else ProbeOutcome.threw)
      2 = some 3002 := by
  have h := c5_getNextAvailablePort_first_free.2
    (fun p => if p = 3000 then ProbeOutcome.output (str "x") else ProbeOutcome.threw)
    1 2 (fun i hi => by
      have hi0 : i = 0 := by omega
      subst hi0
      decide) (by decide) (by omega)
  simpa [DEFAULT_SERVER_PORT] using h

/-- C9: when the idle timer fires, the process always exits: a clean
`close` exits with status 0; a throwing `close` has its error logged and
the process exits with status 1.  No branch leaves the process running. -/
theorem c9_shutdown_always_exits :
    ∀ (t : Nat) (e : JSStr) (r : Except JSStr Unit),
      (shutDownTimerCallback t (Except.ok ())).2 = ProcOutcome.exited 0 ∧
      (shutDownTimerCallback t (Except.error e)).2 = ProcOutcome.exited 1 ∧
      (str "Unable to gracefully shutdown the server - " ++ e) ∈
        (shutDownTimerCallback t (Except.error e)).1 ∧
      ∃ code, (shutDownTimerCallback t r).2 = ProcOutcome.exited code := by
  intro t e r
  refine ⟨rfl, rfl, by simp [shutDownTimerCallback], ?_⟩
  cases r with
  | ok u => exact ⟨0, rfl⟩
  | error err => exact ⟨1, rfl⟩

/-- Running a window-respecting trace from a freshly armed timer never
fires it, and leaves the deadline one full idle delay after the last
request. -/
theorem runRequests_window (m : Nat) :
    ∀ (reqs : List Nat) (t : Nat),
      withinWindow m (armShutDownTimer m t) reqs = true →
      (runRequests m ⟨armShutDownTimer m t, none⟩ reqs).firedAt = none ∧
      (runRequests m ⟨armShutDownTimer m t, none⟩ reqs).deadline =
        armShutDownTimer m (reqs.getLastD t) := by
  intro reqs
  induction reqs with
  | nil => intro t _; exact ⟨rfl, rfl⟩
  | cons r ts ih =>
    intro t hw
    simp only [withinWindow, Bool.and_eq_true, decide_eq_true_eq] at hw
    have hstep : onRequest m ⟨armShutDownTimer m t, none⟩ r =
        ⟨armShutDownTimer m r, none⟩ := by
      simp [onRequest, Nat.not_le.mpr hw.1]
    simp only [runRequests, hstep, List.getLastD_cons]
    exact ih r hw.2

/-- C4: the idle timer is sliding-window.  Every request that arrives
while the process is alive clears the pending timeout and arms a fresh
one a full idle delay ahead; consequently a trace of requests each spaced
less than the idle delay apart never fires the shutdown callback while it
lasts, and the shutdown then fires exactly one full idle delay after the
last request. -/
theorem c4_idle_timer_sliding_window :
    (∀ (m : Nat) (s : TimerState) (t : Nat),
      s.firedAt = none → t < s.deadline →
      onRequest m s t = ⟨armShutDownTimer m t, none⟩) ∧
    ∀ (m t0 : Nat) (reqs : List Nat),
      withinWindow m (armShutDownTimer m t0) reqs = true →
      (runRequests m (listenState m t0) reqs).firedAt = none ∧
      shutdownTime (runRequests m (listenState m t0) reqs) =
        armShutDownTimer m (reqs.getLastD t0) := by
  constructor
  · intro m s t hnone hlt
    simp [onRequest, hnone, Nat.not_le.mpr hlt]
  · intro m t0 reqs hw
    have h := runRequests_window m reqs t0 hw
    refine ⟨h.1, ?_⟩
    have h1 : (runRequests m (listenState m t0) reqs).firedAt = none := h.1
    have h2 : (runRequests m (listenState m t0) reqs).deadline =
        armShutDownTimer m (reqs.getLastD t0) := h.2
    simp only [shutdownTime]
    rw [h1]
    exact h2

/-- C4 witness: three requests 10 ms apart under a 1-minute idle timeout
keep the server alive; shutdown is then scheduled 60000 ms after the
last request. -/
theorem c4_witness :
    onRequest 1 ⟨60000, none⟩ 10 = ⟨60010, none⟩ ∧
    (runRequests 1 (listenState 1 0) [10, 20, 30]).firedAt = none ∧
    shutdownTime (runRequests 1 (listenState 1 0) [10, 20, 30]) = 60030 := by
  refine ⟨?_, ?_, ?_⟩
  · exact c4_idle_timer_sliding_window.1 1 ⟨60000, none⟩ 10 rfl (by decide)
  · exact (c4_idle_timer_sliding_window.2 1 0 [10, 20, 30] (by decide)).1
  · exact (c4_idle_timer_sliding_window.2 1 0 [10, 20, 30] (by decide)).2

/-- C6: for component `force-app/main/default/lwc/helloWorld` under
project `/proj` with no user config file, the effective configuration's
single module-search directory is `/proj/force-app/main/default`, its
single route maps `/` to root component `lwc/helloWorld`, and its rootDir
is `/proj` (serverMode defaults to dev, the port to the computed one, the
providers to the modified provider list). -/
theorem c6_default_config_scenario (providers : List JSStr) (port now : Nat) :
    getMergedLwrConfig providers (str "force-app/main/default/lwc/helloWorld")
      (str "/proj") none port now =
    { serverMode := some (str "dev"), port := some port,
      rootDir := some (str "/proj"),
      lwc := some ⟨some [⟨str "/proj/force-app/main/default"⟩]⟩,
      moduleProviders := some providers,
      routes := some [⟨str "lwc-helloWorld-" ++ natToStr now, str "/",
        str "lwc/helloWorld"⟩] } := by
  have htwo : twoLevelUp (str "force-app/main/default/lwc/helloWorld") (str "/proj") =
      str "/proj/force-app/main/default" := by decide
  have hroot : rootComp (str "force-app/main/default/lwc/helloWorld") (str "/proj") =
      str "lwc/helloWorld" := by decide
  have hdash : jsReplaceAllCh '/' '-'
      (rootComp (str "force-app/main/default/lwc/helloWorld") (str "/proj")) =
      str "lwc-helloWorld" := by decide
  have hres : resolvePosixAbs (str "/proj") = str "/proj" := by decide
  simp only [getMergedLwrConfig, emptyConfig, Option.getD, jsFalsyStr, jsFalsyNat,
    lwcModuleRecord, defaultLwrRoute, htwo, hroot, hdash, hres, if_true]
  have hid : jsReplaceAllCh '/' '-' (str "lwc/helloWorld") ++ '-' :: natToStr now =
      str "lwc-helloWorld-" ++ natToStr now := by
    have h1 : jsReplaceAllCh '/' '-' (str "lwc/helloWorld") = str "lwc-helloWorld" := by
      decide
    have h2 : str "lwc-helloWorld-" = str "lwc-helloWorld" ++ ['-'] := by decide
    rw [h1, h2, List.append_assoc]
    rfl
  rw [hid]

/-- C1 counterexample to the claim as stated: a user config that declares
`serverMode` as the (falsy) empty string does not have it preserved
verbatim — the merge replaces it with the default `"dev"`. -/
theorem c1_counterexample :
    (getMergedLwrConfig [] (str "cmp") (str "/p")
        (some ⟨some [], none, none, none, none, none⟩) 3000 0).serverMode =
      some (str "dev") ∧
    some (str "dev") ≠ some ([] : JSStr) := by
  exact ⟨rfl, by decide⟩

/-- C1 (amended): a per-field merge law over every user config.  Any
field the user declared with a JS-truthy value (non-empty
`serverMode`/`rootDir`, non-zero `port`) is preserved verbatim; a field
declared with a falsy value (`""`, `0`) is replaced by the computed
default exactly as if it were absent; an absent field receives its
computed default; declared `lwc.modules`, `moduleProviders` and `routes`
lists get the computed default entry prepended (never replaced); and with
no user config at all every field receives its computed default. -/
theorem c1_merge_law (providers : List JSStr) (componentName projectDir : JSStr)
    (cfg : LwrGlobalConfig) (port now : Nat) (m : LwrGlobalConfig)
    (hm : m = getMergedLwrConfig providers componentName projectDir
      (some cfg) port now) :
    (∀ s, cfg.serverMode = some s → s ≠ [] → m.serverMode = some s) ∧
    (cfg.serverMode = none ∨ cfg.serverMode = some [] →
      m.serverMode = some (str "dev")) ∧
    (∀ p, cfg.port = some p → p ≠ 0 → m.port = some p) ∧
    (cfg.port = none ∨ cfg.port = some 0 → m.port = some port) ∧
    (∀ r, cfg.rootDir = some r → r ≠ [] → m.rootDir = some r) ∧
    (cfg.rootDir = none ∨ cfg.rootDir = some [] →
      m.rootDir = some (resolvePosixAbs projectDir)) ∧
    (∀ l ms, cfg.lwc = some l → l.modules = some ms →
      m.lwc = some ⟨some (lwcModuleRecord componentName projectDir :: ms)⟩) ∧
    (cfg.lwc = none ∨ cfg.lwc = some ⟨none⟩ →
      m.lwc = some ⟨some [lwcModuleRecord componentName projectDir]⟩) ∧
    (∀ ps, cfg.moduleProviders = some ps →
      m.moduleProviders = some (providers ++ ps)) ∧
    (cfg.moduleProviders = none → m.moduleProviders = some providers) ∧
    (∀ rs, cfg.routes = some rs →
      m.routes = some (defaultLwrRoute componentName projectDir now :: rs)) ∧
    (cfg.routes = none →
      m.routes = some [defaultLwrRoute componentName projectDir now]) ∧
    getMergedLwrConfig providers componentName projectDir none port now =
      ⟨some (str "dev"), some port, some (resolvePosixAbs projectDir),
        some ⟨some [lwcModuleRecord componentName projectDir]⟩,
        some providers,
        some [defaultLwrRoute componentName projectDir now]⟩ := by
  subst hm
  refine ⟨?_, ?_, ?_, ?_, ?_, ?_, ?_, ?_, ?_, ?_, ?_, ?_, ?_⟩
  · intro s hsome hs
    have hf : jsFalsyStr (some s) = false := by
      cases s with
      | nil => exact absurd rfl hs
      | cons _ _ => rfl
    simp only [getMergedLwrConfig, Option.getD_some, hsome, hf,
      Bool.false_eq_true, if_false]
  · rintro (h | h) <;> simp [getMergedLwrConfig, h, jsFalsyStr]
  · intro p hsome hp
    have hf : jsFalsyNat (some p) = false := by simp [jsFalsyNat, hp]
    simp only [getMergedLwrConfig, Option.getD_some, hsome, hf,
      Bool.false_eq_true, if_false]
  · rintro (h | h) <;> simp [getMergedLwrConfig, h, jsFalsyNat]
  · intro r hsome hr
    have hf : jsFalsyStr (some r) = false := by
      cases r with
      | nil => exact absurd rfl hr
      | cons _ _ => rfl
    simp only [getMergedLwrConfig, Option.getD_some, hsome, hf,
      Bool.false_eq_true, if_false]
  · rintro (h | h) <;> simp [getMergedLwrConfig, h, jsFalsyStr]
  · intro l ms h1 h2
    simp only [getMergedLwrConfig, Option.getD_some, h1, h2]
  · rintro (h | h) <;> simp [getMergedLwrConfig, h]
  · intro ps h
    simp [getMergedLwrConfig, h]
  · intro h
    simp [getMergedLwrConfig, h]
  · intro rs h
    simp [getMergedLwrConfig, h]
  · intro h
    simp [getMergedLwrConfig, h]
  · simp [getMergedLwrConfig, emptyConfig, jsFalsyStr, jsFalsyNat]

/-- C1 witness: three concrete configs — all fields declared truthy, all
fields declared falsy/empty, and all fields absent — plus the no-config
case, each merged as the per-field law states. -/
theorem c1_witness :
    let mA := getMergedLwrConfig [str "prov"] (str "lwc/cmp") (str "/p")
      (some ⟨some (str "prod"), some 3456, some (str "/custom"),
        some ⟨some [⟨str "/m"⟩]⟩, some [str "userProv"],
        some [⟨str "r1", str "/r", str "lwc/other"⟩]⟩) 3000 7
    let mB := getMergedLwrConfig [str "prov"] (str "lwc/cmp") (str "/p")
      (some ⟨some [], some 0, some [], some ⟨none⟩, some [], some []⟩) 3000 7
    let mC := getMergedLwrConfig [str "prov"] (str "lwc/cmp") (str "/p")
      (some emptyConfig) 3000 7
    (mA.serverMode = some (str "prod") ∧ mA.port = some 3456 ∧
      mA.rootDir = some (str "/custom") ∧
      mA.lwc = some ⟨some [⟨str "/p"⟩, ⟨str "/m"⟩]⟩ ∧
      mA.moduleProviders = some [str "prov", str "userProv"] ∧
      mA.routes = some [⟨str "lwc-cmp-7", str "/", str "lwc/cmp"⟩,
        ⟨str "r1", str "/r", str "lwc/other"⟩]) ∧
    (mB.serverMode = some (str "dev") ∧ mB.port = some 3000 ∧
      mB.rootDir = some (str "/p") ∧ mB.lwc = some ⟨some [⟨str "/p"⟩]⟩ ∧
      mB.moduleProviders = some [str "prov"] ∧
      mB.routes = some [⟨str "lwc-cmp-7", str "/", str "lwc/cmp"⟩]) ∧
    (mC.serverMode = some (str "dev") ∧ mC.port = some 3000 ∧
      mC.rootDir = some (str "/p") ∧ mC.lwc = some ⟨some [⟨str "/p"⟩]⟩ ∧
      mC.moduleProviders = some [str "prov"] ∧
      mC.routes = some [⟨str "lwc-cmp-7", str "/", str "lwc/cmp"⟩]) ∧
    getMergedLwrConfig [str "prov"] (str "lwc/cmp") (str "/p") none 3000 7 =
      ⟨some (str "dev"), some 3000, some (str "/p"),
        some ⟨some [⟨str "/p"⟩]⟩, some [str "prov"],
        some [⟨str "lwc-cmp-7", str "/", str "lwc/cmp"⟩]⟩ := by
  intro mA mB mC
  have hrec : lwcModuleRecord (str "lwc/cmp") (str "/p") = ⟨str "/p"⟩ := by decide
  have hroute : defaultLwrRoute (str "lwc/cmp") (str "/p") 7 =
      ⟨str "lwc-cmp-7", str "/", str "lwc/cmp"⟩ := by decide
  have hres : resolvePosixAbs (str "/p") = str "/p" := by decide
  obtain ⟨a1, a2, a3, a4, a5, a6, a7, a8, a9, a10, a11, a12, a13⟩ :=
    c1_merge_law [str "prov"] (str "lwc/cmp") (str "/p")
      ⟨some (str "prod"), some 3456, some (str "/custom"),
        some ⟨some [⟨str "/m"⟩]⟩, some [str "userProv"],
        some [⟨str "r1", str "/r", str "lwc/other"⟩]⟩ 3000 7 mA rfl
  obtain ⟨b1, b2, b3, b4, b5, b6, b7, b8, b9, b10, b11, b12, b13⟩ :=
    c1_merge_law [str "prov"] (str "lwc/cmp") (str "/p")
      ⟨some [], some 0, some [], some ⟨none⟩, some [], some []⟩ 3000 7 mB rfl
  obtain ⟨d1, d2, d3, d4, d5, d6, d7, d8, d9, d10, d11, d12, d13⟩ :=
    c1_merge_law [str "prov"] (str "lwc/cmp") (str "/p")
      emptyConfig 3000 7 mC rfl
  refine ⟨⟨?_, ?_, ?_, ?_, ?_, ?_⟩, ⟨?_, ?_, ?_, ?_, ?_, ?_⟩,
    ⟨?_, ?_, ?_, ?_, ?_, ?_⟩, ?_⟩
  · exact a1 (str "prod") rfl (by decide)
  · exact a3 3456 rfl (by decide)
  · exact a5 (str "/custom") rfl (by decide)
  · have h := a7 ⟨some [⟨str "/m"⟩]⟩ [⟨str "/m"⟩] rfl rfl
    rw [hrec] at h
    exact h
  · exact a9 [str "userProv"] rfl
  · have h := a11 [⟨str "r1", str "/r", str "lwc/other"⟩] rfl
    rw [hroute] at h
    exact h
  · exact b2 (Or.inr rfl)
  · exact b4 (Or.inr rfl)
  · have h := b6 (Or.inr rfl)
    rw [hres] at h
    exact h
  · have h := b8 (Or.inr rfl)
    rw [hrec] at h
    exact h
  · exact b9 [] rfl
  · have h := b11 [] rfl
    rw [hroute] at h
    exact h
  · exact d2 (Or.inl rfl)
  · exact d4 (Or.inl rfl)
  · have h := d6 (Or.inl rfl)
    rw [hres] at h
    exact h
  · have h := d8 (Or.inl rfl)
    rw [hrec] at h
    exact h
  · exact d10 rfl
  · have h := d12 rfl
    rw [hroute] at h
    exact h
  · rw [a13, hres, hrec, hroute]

end LwrServerUtils

namespace CustomLwcModuleProvider

/-- C2 counterexample to the claim as stated: `hello` is in the component
map but neither `hello.js` nor `hello.css` exists; the resolver does not
defer (return `undefined`) — it returns an entry whose path is the bare
component path with no extension. -/
theorem c2_counterexample :
    getModuleEntry [] [(str "hello", str "/p/lwc/hello")] (str "c/hello") =
      Resolution.entryFound (str "c/hello|1") (str "/p/lwc/hello/hello")
        (str "c/hello") (str "1") ∧
    getModuleEntry [] [(str "hello", str "/p/lwc/hello")] (str "c/hello") ≠
      Resolution.deferToBase := by
  exact ⟨by decide, by decide⟩

/-- C2 (amended): for `c/name` with `name` a key of the component map
(and carrying no `#` fragment or extension), the resolver returns an
entry ending in `.js` when the sibling script exists, an entry ending in
`.css` when only the stylesheet exists, and when neither file exists it
still returns an entry — the bare component path with no extension —
rather than deferring. -/
theorem c2_component_resolution (fsFiles : List JSStr)
    (moduleMap : List (JSStr × JSStr)) (name dir : JSStr)
    (hname : name ≠ []) (hhash : '#' ∉ name) (hdot : '.' ∉ name)
    (hmap : mapGet moduleMap name = some dir) :
    (fsFiles.contains (pathJoin dir name ++ str ".js") = true →
      getModuleEntry fsFiles moduleMap (str "c/" ++ name) =
        Resolution.entryFound (str "c/" ++ name ++ str "|1")
          (pathJoin dir (name ++ str ".js")) (str "c/" ++ name) (str "1")) ∧
    (fsFiles.contains (pathJoin dir name ++ str ".js") = false →
      fsFiles.contains (pathJoin dir name ++ str ".css") = true →
      getModuleEntry fsFiles moduleMap (str "c/" ++ name) =
        Resolution.entryFound (str "c/" ++ name ++ str "|1")
          (pathJoin dir (name ++ str ".css")) (str "c/" ++ name) (str "1")) ∧
    (fsFiles.contains (pathJoin dir name ++ str ".js") = false →
      fsFiles.contains (pathJoin dir name ++ str ".css") = false →
      getModuleEntry fsFiles moduleMap (str "c/" ++ name) =
        Resolution.entryFound (str "c/" ++ name ++ str "|1")
          (pathJoin dir name) (str "c/" ++ name) (str "1")) := by
  have hstart : jsStartsWith (str "c/") (str "c/" ++ name) = true :=
    isPrefixOf_append (str "c/") name
  have hsplit : splitCh '#' (str "c/" ++ name) = [str "c/" ++ name] := by
    apply splitCh_of_not_mem
    simp only [List.mem_append]
    rintro (h | h)
    · revert h; decide
    · exact hhash h
  have hrepl : jsReplaceFirst (str "c/") [] (str "c/" ++ name) = name := by
    have : str "c/" = ['c', '/'] := rfl
    rw [this]
    exact jsReplaceFirst_append 'c' ['/'] [] name
  have hcont : name.contains '.' = false := by
    simp only [List.contains, List.elem_eq_mem, decide_eq_false_iff_not]
    exact hdot
  have hne : ¬ (pathJoin dir name).isEmpty := by
    simp [pathJoin]
  refine ⟨?_, ?_, ?_⟩
  · intro hjs
    simp only [getModuleEntry, hstart, hsplit, hrepl, hcont, hmap, hjs, hne,
      List.headD_cons, List.length_cons, List.length_nil, jsFalsyStr,
      Bool.false_eq_true, not_false_eq_true, and_true, if_true, if_false]
    simp [pathJoin, List.append_assoc]
  · intro hjs hcss
    simp only [getModuleEntry, hstart, hsplit, hrepl, hcont, hmap, hjs, hcss, hne,
      List.headD_cons, List.length_cons, List.length_nil, jsFalsyStr,
      Bool.false_eq_true, not_false_eq_true, and_true, if_true, if_false]
    simp [pathJoin, List.append_assoc]
  · intro hjs hcss
    simp only [getModuleEntry, hstart, hsplit, hrepl, hcont, hmap, hjs, hcss, hne,
      List.headD_cons, List.length_cons, List.length_nil, jsFalsyStr,
      Bool.false_eq_true, not_false_eq_true, and_true, if_true, if_false]
    simp [pathJoin, List.append_assoc]

/-- C2 witness: with `hello.js` on disk, `c/hello` resolves to the `.js`
entry. -/
theorem c2_witness :
    getModuleEntry [str "/p/lwc/hello/hello.js"]
      [(str "hello", str "/p/lwc/hello")] (str "c/hello") =
      Resolution.entryFound (str "c/hello|1") (str "/p/lwc/hello/hello.js")
        (str "c/hello") (str "1") := by
  have h := (c2_component_resolution [str "/p/lwc/hello/hello.js"]
    [(str "hello", str "/p/lwc/hello")] (str "hello") (str "/p/lwc/hello")
    (by decide) (by decide) (by decide) (by decide)).1 (by decide)
  simpa using h

end CustomLwcModuleProvider

namespace SalesforceLabelProvider

/-- Spec-side view of one file's label list: a single entry object counts
as a one-element list (written after the spec's description of the Label
Map as "a `{ fullName, value }` entry list"). -/
def fileLabelEntries (f : ParsedLabels) : List LabelEntry :=
  match f.labelsField with
  | none => []
  | some (.inl e) => [e]
  | some (.inr es) => es

/-- Spec-side lookup (following the spec's words): linear search across
all mapped documents' label lists, first match wins. -/
def labelLookupSpec : List (JSStr × ParsedLabels) → JSStr → Option JSStr
  | [], _ => none
  | (_, f) :: rest, nm =>
    match (fileLabelEntries f).find? (fun e => e.fullName == nm) with
    | some e => some e.value
    | none => labelLookupSpec rest nm

/-- On files whose `labels` field is present, the implementation's search
refines the spec-side first-match lookup. -/
theorem searchLabelFiles_eq_spec (m : List (JSStr × ParsedLabels)) (nm : JSStr)
    (h : ∀ pf ∈ m, pf.2.labelsField ≠ none) :
    searchLabelFiles m nm = Except.ok (labelLookupSpec m nm) := by
  induction m with
  | nil => rfl
  | cons x rest ih =>
    obtain ⟨p, f⟩ := x
    have hx := h (p, f) (List.mem_cons_self _ _)
    have hrest := ih (fun pf hpf => h pf (List.mem_cons_of_mem _ hpf))
    cases hf : f.labelsField with
    | none => exact absurd hf hx
    | some lf =>
      cases lf with
      | inl e =>
        cases hb : (e.fullName == nm) with
        | true =>
          simp [searchLabelFiles, findInLabelsField, labelLookupSpec,
            fileLabelEntries, hf, hb, List.find?]
        | false =>
          simp [searchLabelFiles, findInLabelsField, labelLookupSpec,
            fileLabelEntries, hf, hb, List.find?, hrest]
      | inr es =>
        cases hfind : es.find? (fun e => e.fullName == nm) with
        | none =>
          simp [searchLabelFiles, findInLabelsField, labelLookupSpec,
            fileLabelEntries, hf, hfind, hrest]
        | some e =>
          simp [searchLabelFiles, findInLabelsField, labelLookupSpec,
            fileLabelEntries, hf, hfind]

/-- The label name parsed out of `@salesforce/label/c.<name>`. -/
theorem labelNameOf_c (name : JSStr) (hs : '/' ∉ name) (hd : '.' ∉ name) :
    labelNameOf (str "@salesforce/label/c." ++ name) = some name := by
  have h1 : str "@salesforce/label/c." ++ name =
      str "@salesforce" ++ '/' :: (str "label" ++ '/' :: (str "c." ++ name)) := by
    rfl
  have hlast : '/' ∉ str "c." ++ name := by
    simp only [List.mem_append]
    rintro (h | h)
    · revert h; decide
    · exact hs h
  have h2 : str "c." ++ name = ['c'] ++ '.' :: name := rfl
  unfold labelNameOf
  rw [h1, splitCh_append_cons _ (by decide), splitCh_append_cons _ (by decide),
    splitCh_of_not_mem hlast]
  simp only [List.get?_cons_succ, List.get?_cons_zero, Option.bind_some,
    Option.some_bind]
  rw [h2, splitCh_append_cons _ (by decide), splitCh_of_not_mem hd]
  rfl

/-- C3 counterexample to the claim as stated: the label `someLabel` exists
in a scanned file (with the empty string as its value), yet resolution
returns `undefined` instead of a module exporting that value. -/
theorem c3_counterexample :
    (fileLabelEntries ⟨some (Sum.inl ⟨str "someLabel", []⟩)⟩).find?
        (fun e => e.fullName == str "someLabel") = some ⟨str "someLabel", []⟩ ∧
    getModule [(str "f1", ⟨some (Sum.inl ⟨str "someLabel", []⟩)⟩)]
      (str "@salesforce/label/c.someLabel") = Except.ok none := by
  exact ⟨by decide, rfl⟩

/-- C3 (amended): for `@salesforce/label/c.<name>` over scanned files
whose `labels` field is present, if the first match across files (in
scan order) carries a non-empty value `v`, resolution produces a virtual
module whose source is a single default export of the string literal
`v`; if no scanned file contains the label, resolution returns
`undefined`.  (A first match whose value is the empty string resolves to
`undefined` — see the counterexample.) -/
theorem c3_label_resolution (m : List (JSStr × ParsedLabels)) (name : JSStr)
    (hs : '/' ∉ name) (hd : '.' ∉ name) (hname : name ≠ [])
    (hfiles : ∀ pf ∈ m, pf.2.labelsField ≠ none) :
    (∀ v, labelLookupSpec m name = some v → v ≠ [] →
      ∃ mod, getModule m (str "@salesforce/label/c." ++ name) =
          Except.ok (some mod) ∧
        mod.originalSource = str "export default \"" ++ v ++ str "\";" ∧
        mod.compiledSource = mod.originalSource) ∧
    (labelLookupSpec m name = none →
      getModule m (str "@salesforce/label/c." ++ name) = Except.ok none) := by
  have hpre : jsStartsWith (str "@salesforce/label/")
      (str "@salesforce/label/c." ++ name) = true := by
    have h0 : str "@salesforce/label/c." ++ name =
        str "@salesforce/label/" ++ (str "c." ++ name) := rfl
    rw [h0]
    exact isPrefixOf_append _ _
  have hempty : name.isEmpty = false := by
    cases name with
    | nil => exact absurd rfl hname
    | cons _ _ => rfl
  have hlookup : getLabelValueFromMap m (str "@salesforce/label/c." ++ name) =
      Except.ok (labelLookupSpec m name) := by
    unfold getLabelValueFromMap
    rw [labelNameOf_c name hs hd]
    simp only [hempty, Bool.false_eq_true, if_false]
    exact searchLabelFiles_eq_spec m name hfiles
  constructor
  · intro v hv hvne
    have hvempty : v.isEmpty = false := by
      cases v with
      | nil => exact absurd rfl hvne
      | cons _ _ => rfl
    simp only [getModule, getModuleEntry, hpre, hlookup, hv, hvempty,
      Bool.false_eq_true, if_false, if_true]
    exact ⟨_, rfl, rfl, rfl⟩
  · intro hv
    simp only [getModule, getModuleEntry, hpre, hlookup, hv, if_true]

/-- C3 witness: a single file carrying `greeting = "Hi"` resolves the
label specifier to a module exporting `"Hi"`. -/
theorem c3_witness :
    ∃ mod,
      getModule [(str "labels", ⟨some (Sum.inl ⟨str "greeting", str "Hi"⟩)⟩)]
        (str "@salesforce/label/c.greeting") = Except.ok (some mod) ∧
      mod.originalSource = str "export default \"Hi\";" := by
  have h := (c3_label_resolution
    [(str "labels", ⟨some (Sum.inl ⟨str "greeting", str "Hi"⟩)⟩)]
    (str "greeting") (by decide) (by decide) (by decide)
    (by
      intro pf hpf
      simp only [List.mem_singleton] at hpf
      subst hpf
      simp)).1
    (str "Hi") (by decide) (by decide)
  obtain ⟨mod, hm, hsrc, _⟩ := h
  exact ⟨mod, hm, by rw [hsrc]; decide⟩

/-- The wrap `labels = [labels]` makes a single entry object and its
one-element array behave identically in the find step. -/
theorem findInLabelsField_single (e : LabelEntry) (nm : JSStr) :
    findInLabelsField (some (Sum.inl e)) nm =
      findInLabelsField (some (Sum.inr [e])) nm := by
  cases hb : (e.fullName == nm) with
  | true => simp [findInLabelsField, List.find?, hb]
  | false => simp [findInLabelsField, List.find?, hb]

/-- Replacing a single-object `labels` field by its one-element array
leaves the whole search unchanged. -/
theorem searchLabelFiles_single (pre post : List (JSStr × ParsedLabels))
    (p : JSStr) (e : LabelEntry) (nm : JSStr) :
    searchLabelFiles (pre ++ (p, ⟨some (Sum.inl e)⟩) :: post) nm =
      searchLabelFiles (pre ++ (p, ⟨some (Sum.inr [e])⟩) :: post) nm := by
  induction pre with
  | nil =>
    simp only [List.nil_append, searchLabelFiles, findInLabelsField_single]
  | cons x rest ih =>
    obtain ⟨q, f⟩ := x
    simp only [List.cons_append, searchLabelFiles]
    cases findInLabelsField f.labelsField nm with
    | error a => rfl
    | ok o =>
      cases o with
      | some e2 => rfl
      | none => exact ih

/-- C10: a labels file whose parsed `labels` field is a single object
(the one-label case) behaves exactly as the same file with a one-element
array: `getLabelValueFromMap` wraps the non-array value before searching,
so lookup and module resolution coincide with the multi-label case. -/
theorem c10_single_label_wrap (pre post : List (JSStr × ParsedLabels))
    (p : JSStr) (e : LabelEntry) (spec : JSStr) :
    getLabelValueFromMap (pre ++ (p, ⟨some (Sum.inl e)⟩) :: post) spec =
      getLabelValueFromMap (pre ++ (p, ⟨some (Sum.inr [e])⟩) :: post) spec ∧
    getModule (pre ++ (p, ⟨some (Sum.inl e)⟩) :: post) spec =
      getModule (pre ++ (p, ⟨some (Sum.inr [e])⟩) :: post) spec := by
  have hval : getLabelValueFromMap (pre ++ (p, ⟨some (Sum.inl e)⟩) :: post) spec =
      getLabelValueFromMap (pre ++ (p, ⟨some (Sum.inr [e])⟩) :: post) spec := by
    unfold getLabelValueFromMap
    cases hn : labelNameOf spec with
    | none => rfl
    | some nm =>
      cases he : nm.isEmpty with
      | true => simp [he]
      | false => simp [he, searchLabelFiles_single pre post p e nm]
  have hentry : getModuleEntry (pre ++ (p, ⟨some (Sum.inl e)⟩) :: post) spec =
      getModuleEntry (pre ++ (p, ⟨some (Sum.inr [e])⟩) :: post) spec := by
    unfold getModuleEntry
    rw [hval]
  constructor
  · exact hval
  · unfold getModule
    rw [hentry]

end SalesforceLabelProvider

/-- C7: the Component Locator never raises.  Any failure to read or parse
`sfdx-project.json` (including its absence, and a parsed document missing
`packageDirectories`) yields an empty Component Map and an empty Label
Map; and during the label scan a file whose read or XML parse throws is
skipped individually — the map built is exactly the one built from the
remaining files, and a well-parsed file is stored under its root-relative
path. -/
theorem c7_locator_degrades_to_empty :
    (∀ (rootDir : JSStr) (files : List (JSStr × Except Unit ParsedLabels)),
      SalesforceLabelProvider.generateSfdxLabelComponentsMap rootDir
        (Except.error ()) files = [] ∧
      SalesforceLabelProvider.generateSfdxLabelComponentsMap rootDir
        (Except.ok none) files = []) ∧
    (∀ (files : List JSStr),
      CustomLwcModuleProvider.generateSfdxComponentsMap (Except.error ()) files = [] ∧
      CustomLwcModuleProvider.generateSfdxComponentsMap (Except.ok none) files = []) ∧
    (∀ (rootDir : JSStr) (pkgs : List JSStr)
        (pre post : List (JSStr × Except Unit ParsedLabels)) (badPath : JSStr),
      SalesforceLabelProvider.generateSfdxLabelComponentsMap rootDir
        (Except.ok (some pkgs)) (pre ++ (badPath, Except.error ()) :: post) =
      SalesforceLabelProvider.generateSfdxLabelComponentsMap rootDir
        (Except.ok (some pkgs)) (pre ++ post)) ∧
    (∀ (rootDir : JSStr) (pkgs : List JSStr) (p : JSStr) (parsed : ParsedLabels),
      SalesforceLabelProvider.generateSfdxLabelComponentsMap rootDir
        (Except.ok (some pkgs)) [(p, Except.ok parsed)] =
      [(jsReplaceFirst (rootDir ++ ['/']) [] p, parsed)]) := by
  refine ⟨fun rootDir files => ⟨rfl, rfl⟩, fun files => ⟨rfl, rfl⟩, ?_, ?_⟩
  · intro rootDir pkgs pre post badPath
    simp only [SalesforceLabelProvider.generateSfdxLabelComponentsMap]
    rw [List.foldl_append, List.foldl_cons, List.foldl_append]
  · intro rootDir pkgs p parsed
    rfl

/-! ### Path lemmas for the resource resolver -/

theorem extOfBase_of_not_mem {base : JSStr} (h : '.' ∉ base) :
    extOfBase base = [] := by
  unfold extOfBase
  rw [if_pos]
  have : base.reverse.takeWhile (fun c => c ≠ '.') = base.reverse := by
    rw [List.takeWhile_eq_self_iff]
    intro a ha
    simp only [decide_eq_true_eq]
    intro hc
    exact h (by simpa [hc] using ha)
  rw [this, List.length_reverse]
  omega

theorem isPrefixOf_append_eq_false {A B rest : JSStr}
    (hlen : B.length ≤ A.length) (hne : A.take B.length ≠ B) :
    A.isPrefixOf (B ++ rest) = false := by
  rw [Bool.eq_false_iff]
  intro hcontra
  rw [List.isPrefixOf_iff_prefix] at hcontra
  obtain ⟨t, ht⟩ := hcontra
  apply hne
  have h := congrArg (fun l => l.take B.length) ht
  simp only at h
  rwa [List.take_append_of_le_length hlen, List.take_left] at h

theorem joinSegs_append_single (A : List JSStr) (b : JSStr) (hA : A ≠ []) :
    joinSegs (A ++ [b]) = joinSegs A ++ '/' :: b := by
  induction A with
  | nil => exact absurd rfl hA
  | cons a as ih =>
    cases as with
    | nil => rfl
    | cons a2 as2 =>
      have h2 := ih (by simp)
      simp only [List.cons_append] at h2 ⊢
      show a ++ '/' :: joinSegs (a2 :: (as2 ++ [b])) =
        (a ++ '/' :: joinSegs (a2 :: as2)) ++ '/' :: b
      rw [h2]
      simp

/-- Resolving an absolute path ending in a plain trailing segment leaves
that segment as the basename. -/
theorem resolvePosixAbs_trailing (L name : JSStr) (hn : name ≠ [])
    (hs : '/' ∉ name) (hd : '.' ∉ name) :
    ∃ q, resolvePosixAbs (L ++ '/' :: name) = q ++ '/' :: name := by
  obtain ⟨gs, hgs_ne, hgs⟩ := splitCh_append_last L hs
  unfold resolvePosixAbs resolveSegs
  rw [hgs, List.foldl_append, List.foldl_cons, List.foldl_nil]
  have hstep : stepSeg (gs.foldl stepSeg []) name = name :: gs.foldl stepSeg [] := by
    unfold stepSeg
    rw [if_neg, if_neg]
    · intro h
      exact hd (by rw [h]; simp)
    · rintro (h | h)
      · exact hn h
      · exact hd (by rw [h]; simp)
  rw [hstep, List.reverse_cons]
  cases hA : (gs.foldl stepSeg []).reverse with
  | nil => exact ⟨[], by simp [joinSegs]⟩
  | cons a as =>
    refine ⟨'/' :: joinSegs (a :: as), ?_⟩
    rw [joinSegs_append_single (a :: as) name (by simp)]
    simp

namespace SalesforceResourceProvider

/-- The resolved absolute path of a named file in the static-resources
folder ends with `/name`. -/
theorem fullPath_trailing (rootDir folder name : JSStr) (hn : name ≠ [])
    (hs : '/' ∉ name) (hd : '.' ∉ name) :
    ∃ q, fullPath rootDir (pathJoin folder name) = q ++ '/' :: name := by
  have hfp : fullPath rootDir (pathJoin folder name) =
      resolvePosixAbs ((rootDir ++ '/' :: folder) ++ '/' :: name) := by
    unfold fullPath pathJoin
    congr 1
    simp
  obtain ⟨q, hq⟩ := resolvePosixAbs_trailing (rootDir ++ '/' :: folder) name hn hs hd
  exact ⟨q, hfp.trans hq⟩

/-- The extension the glob discovers for a candidate `fullPath.<ext>`. -/
theorem extname_fullPath (rootDir folder name ext : JSStr) (hn : name ≠ [])
    (hs : '/' ∉ name) (hd : '.' ∉ name) (hes : '/' ∉ ext) (hed : '.' ∉ ext) :
    extname (fullPath rootDir (pathJoin folder name) ++ '.' :: ext) =
      '.' :: ext := by
  obtain ⟨q, hq⟩ := fullPath_trailing rootDir folder name hn hs hd
  unfold extname
  rw [hq]
  have hassoc : (q ++ '/' :: name) ++ '.' :: ext = q ++ '/' :: (name ++ '.' :: ext) := by
    simp
  have hnoslash : '/' ∉ name ++ '.' :: ext := by
    simp only [List.mem_append, List.mem_cons, not_or]
    exact ⟨hs, by decide, hes⟩
  rw [hassoc, lastSeg_append hnoslash]
  exact extOfBase_append hn hed

/-- C8: for `@salesforce/resourceUrl/<name>`, when the glob at the
resolved static-resources path finds a file `<name>.<ext>` first, the
resolver returns a module exporting the project-relative path
`force-app/main/default/staticresources/<name>.<ext>`; when nothing
matches, it still returns a module — the exported path simply carries an
empty extension. -/
theorem c8_resource_resolution (rootDir name ext : JSStr) (files : List JSStr)
    (rest : List JSStr) (hn : name ≠ []) (hs : '/' ∉ name) (hd : '.' ∉ name)
    (hes : '/' ∉ ext) (hed : '.' ∉ ext) :
    (globExtCandidates files
        (fullPath rootDir (pathJoin (str "force-app/main/default/staticresources") name)) =
        (fullPath rootDir (pathJoin (str "force-app/main/default/staticresources") name) ++
          '.' :: ext) :: rest →
      ∃ mod, getModule rootDir files (str "@salesforce/resourceUrl/" ++ name) = some mod ∧
        mod.originalSource = str "export default \"" ++
          (str "force-app/main/default/staticresources/" ++ name ++ '.' :: ext) ++
          str "\";" ∧
        mod.compiledSource = mod.originalSource) ∧
    (globExtCandidates files
        (fullPath rootDir (pathJoin (str "force-app/main/default/staticresources") name)) = [] →
      ∃ mod, getModule rootDir files (str "@salesforce/resourceUrl/" ++ name) = some mod ∧
        mod.originalSource = str "export default \"" ++
          (str "force-app/main/default/staticresources/" ++ name) ++ str "\";" ∧
        mod.compiledSource = mod.originalSource) := by
  have hgate : isResourceUrlScopedModule (str "@salesforce/resourceUrl/" ++ name) = true := by
    unfold isResourceUrlScopedModule jsStartsWith
    rw [isPrefixOf_append]
    rfl
  have hnotca : jsStartsWith (str "@salesforce/contentAssetUrl/")
      (str "@salesforce/resourceUrl/" ++ name) = false := by
    unfold jsStartsWith
    exact isPrefixOf_append_eq_false (by decide) (by decide)
  have hextract :
      (splitCh '.' ((splitCh '/' (str "@salesforce/resourceUrl/" ++ name)).getD 2 [])).headD [] =
        name := by
    have h1 : str "@salesforce/resourceUrl/" ++ name =
        str "@salesforce" ++ '/' :: (str "resourceUrl" ++ '/' :: name) := rfl
    rw [h1, splitCh_append_cons _ (by decide), splitCh_append_cons _ (by decide),
      splitCh_of_not_mem hs]
    simp only [List.getD, List.get?_cons_succ, List.get?_cons_zero, Option.getD_some]
    rw [splitCh_of_not_mem hd]
    rfl
  have hpif : pathJoin (str "force-app/main/default/staticresources") name =
      str "force-app/main/default/staticresources/" ++ name := rfl
  constructor
  · intro hglob
    have hext_val := extname_fullPath rootDir
      (str "force-app/main/default/staticresources") name ext hn hs hd hes hed
    simp only [getModule, getModuleEntry, hgate, if_true, hextract, hnotca,
      Bool.false_eq_true, if_false, getResourceFilePath, getPath,
      getFileExtension, hglob, hext_val]
    refine ⟨_, rfl, ?_, rfl⟩
    rw [hpif]
  · intro hglob
    simp only [getModule, getModuleEntry, hgate, if_true, hextract, hnotca,
      Bool.false_eq_true, if_false, getResourceFilePath, getPath,
      getFileExtension, hglob]
    refine ⟨_, rfl, ?_, rfl⟩
    rw [List.append_nil, hpif]

/-- C8 witness: with `myImage.png` on disk under the project's
static-resources folder, the exported path string is
`force-app/main/default/staticresources/myImage.png`. -/
theorem c8_witness :
    (getModule (str "/proj")
        [str "/proj/force-app/main/default/staticresources/myImage.png"]
        (str "@salesforce/resourceUrl/myImage")).map
      (fun mod => mod.originalSource) =
    some (str "export default \"force-app/main/default/staticresources/myImage.png\";") := by
  have h := (c8_resource_resolution (str "/proj") (str "myImage") (str "png")
    [str "/proj/force-app/main/default/staticresources/myImage.png"]
    [] (by decide) (by decide) (by decide)
    (by decide) (by decide)).1 (by decide)
  obtain ⟨mod, hm, hsrc, _⟩ := h
  have hm' : getModule (str "/proj")
      [str "/proj/force-app/main/default/staticresources/myImage.png"]
      (str "@salesforce/resourceUrl/myImage") = some mod := by
    have heq : str "@salesforce/resourceUrl/myImage" =
        str "@salesforce/resourceUrl/" ++ str "myImage" := by decide
    rw [heq]
    exact hm
  rw [hm', Option.map_some']
  rw [hsrc]
  decide

end SalesforceResourceProvider

end LwcDevMobile
